import Mathlib

/-!
Verification of `cs50/pagerank/pagerank.py`.

The Python program is shallowly embedded over exact rationals (`ℚ` stands for
Python floats; every numeric step of the source is mirrored exactly, so the
embedded values are the exact-arithmetic values of the program).  Python dicts
are association lists that keep insertion order, exactly as Python 3 dicts
iterate; dict reads take the first matching key and dict writes update the
first matching key, which coincides with dict semantics because a dict never
holds a duplicate key.  Python exceptions are an explicit error type.  The
random source (`random.randint`) is an explicit oracle argument.
-/

/-- The exceptions the embedded code can raise, mirroring the Python
exceptions the source can produce (`ValueError` from `random.randint` on an
empty range, `ZeroDivisionError` from `1/n`, `KeyError` from a missing dict
key, `IndexError` from indexing an empty list). -/
inductive PyError where
  | valueError
  | zeroDivisionError
  | keyError
  | indexError
deriving DecidableEq, Repr

/-- A corpus: mapping from page name to its list of outgoing links
(`crawl` builds a dict from page to a set of pages; the set is represented as
a duplicate-free list).  Insertion order is the dict iteration order. -/
abbrev Graph := List (String × List String)

/-- The per-node transition distributions precomputed by `sample_pagerank`
(`all_prob` in the source). -/
abbrev Cache := List (String × List (String × ℚ))

/-- The state of `iterate_pagerank`: `rank_dict_c`, mapping each page to the
pair `[previous rank, current rank]` (components `.2.1` and `.2.2`). -/
abbrev IterState := List (String × ℚ × ℚ)

/-- Dict read `d[k]` (first matching key; the default stands in for the
`KeyError` case, which is never reached on the inputs of the claims). -/
def lookupD : List (String × α) → String → α → α
  | [], _, dflt => dflt
  | e :: rest, k, dflt => if e.1 = k then e.2 else lookupD rest k dflt

/-- Dict write `d[k] = v` (updates the first matching key, a no-op when the
key is absent; on duplicate-free keys this is exactly dict assignment). -/
def setFirst : List (String × α) → String → α → List (String × α)
  | [], _, _ => []
  | e :: rest, k, v => if e.1 = k then (e.1, v) :: rest else e :: setFirst rest k v

/-- Embeds `transition_model(corpus, page, damping_factor)` from the source:
`hop_chance = 1 - damping_factor`; every key starts at `hop_chance`;
`move_on = damping_factor / outgoing_degree` when the outdegree is positive,
else `0`; each outgoing link's entry is raised by `move_on` when the result
is positive. -/
def transition_model (corpus : Graph) (page : String) (damping_factor : ℚ) :
    List (String × ℚ) :=
  let hop_chance := 1 - damping_factor
  let probability_matrix := corpus.map (fun kv => (kv.1, hop_chance))
  let outgoing := lookupD corpus page []
  let outgoing_degree := outgoing.length
  let move_on := if 0 < outgoing_degree then damping_factor / (outgoing_degree : ℚ) else 0
  outgoing.foldl (fun pm link =>
    let prob := lookupD pm link 0 + move_on
    if 0 < prob then setFirst pm link prob else pm) probability_matrix

/-- The subtraction loop of `weighted_choose`: `r -= weight; if r <= 0.001:
return page`, over the (already rescaled) distribution in dict order;
falling off the end returns `none` (Python returns `None`). -/
def wcGo : ℚ → List (String × ℚ) → Option String
  | _, [] => none
  | r, e :: rest =>
    if r - e.2 ≤ 1 / 1000 then some e.1 else wcGo (r - e.2) rest

/-- Embeds `prob_matrix = {k: v * normal_factor ...}` with `normal_factor = 1000`:
a fresh dict built from the argument. -/
def rescale (pm : List (String × ℚ)) : List (String × ℚ) :=
  pm.map (fun kv => (kv.1, kv.2 * 1000))

/-- Embeds `total_weight = int(sum(prob_matrix.values()))` after rescaling.  The
sums arising here are non-negative, where Python's `int` truncation agrees
with the floor. -/
def total_weight (pm : List (String × ℚ)) : ℤ :=
  ⌊((rescale pm).map (fun kv => kv.2)).sum⌋

/-- Embeds `weighted_choose(prob_matrix)` with the mutable frame made explicit: the
result is the pair (value returned or exception raised, contents of the
caller's dict object after the call).  The source rebinds its local name to
the fresh rescaled dict and never writes through the argument, so the second
component is the argument itself.  `random.randint(1, total_weight)` raises
`ValueError` when `total_weight < 1`, otherwise it yields `oracle1 1
total_weight`. -/
def weighted_choose_st (pm : List (String × ℚ)) (oracle1 : ℤ → ℤ → ℤ) :
    Except PyError (Option String) × List (String × ℚ) :=
  let tw := total_weight pm
  (if tw < 1 then Except.error PyError.valueError
   else Except.ok (wcGo ((oracle1 1 tw : ℤ) : ℚ) (rescale pm)), pm)

/-- The value/exception outcome of `weighted_choose`. -/
def weighted_choose_run (pm : List (String × ℚ)) (oracle1 : ℤ → ℤ → ℤ) :
    Except PyError (Option String) :=
  (weighted_choose_st pm oracle1).1

/-- The sampling loop of `sample_pagerank` (`for i in range(n)`), threading
the mutable `all_prob` cache so that any mutation performed by
`weighted_choose` on the aliased per-node dict would be visible in it.  Each
round: look up `all_prob[current_page]`, bump `ranking_dict[current_page]` by
`inc`, then draw the next page.  A `None` current page makes the next round's
dict lookups raise `KeyError`, as in Python. -/
def sampleGo (oracle : ℕ → ℤ → ℤ → ℤ) (inc : ℚ) :
    Cache → List (String × ℚ) → Option String → ℕ → ℕ →
    Except PyError (List (String × ℚ)) × Cache
  | cache, ranking, _, _, 0 => (Except.ok ranking, cache)
  | cache, _, none, _, _ + 1 => (Except.error PyError.keyError, cache)
  | cache, ranking, some cur, i, fuel + 1 =>
    let dist := lookupD cache cur []
    let ranking' := setFirst ranking cur (lookupD ranking cur 0 + inc)
    let res := weighted_choose_st dist (oracle i)
    let cache' := setFirst cache cur res.2
    match res.1 with
    | Except.error e => (Except.error e, cache')
    | Except.ok choice => sampleGo oracle inc cache' ranking' choice (i + 1) fuel

/-- Embeds `sample_pagerank(corpus, damping_factor, n)`: start at the first key of
the corpus (`IndexError` on an empty corpus), `inc = 1/n`
(`ZeroDivisionError` when `n = 0`; `range(n)` is empty for negative `n`),
precompute every transition distribution once, then run the sampling loop. -/
def sample_pagerank (corpus : Graph) (damping_factor : ℚ) (n : ℤ)
    (oracle : ℕ → ℤ → ℤ → ℤ) : Except PyError (List (String × ℚ)) :=
  match corpus with
  | [] => Except.error PyError.indexError
  | c0 :: _ =>
    if n = 0 then Except.error PyError.zeroDivisionError
    else
      (sampleGo oracle (1 / (n : ℚ))
        (corpus.map (fun kv => (kv.1, transition_model corpus kv.1 damping_factor)))
        (corpus.map (fun kv => (kv.1, (0 : ℚ))))
        (some c0.1) 0 n.toNat).1

/-- The write `rank_dict_c[page][1] = v`. -/
def set1First : IterState → String → ℚ → IterState
  | [], _, _ => []
  | e :: rest, k, v =>
    if e.1 = k then (e.1, (e.2.1, v)) :: rest else e :: set1First rest k v

/-- The write `rank_dict_c[page][0] = v`. -/
def set0First : IterState → String → ℚ → IterState
  | [], _, _ => []
  | e :: rest, k, v =>
    if e.1 = k then (e.1, (v, e.2.2)) :: rest else e :: set0First rest k v

/-- The read `rank_dict_c[page]`, the pair `[previous, current]`. -/
def getPairD : IterState → String → ℚ × ℚ
  | [], _ => (0, 0)
  | e :: rest, k => if e.1 = k then e.2 else getPairD rest k

/-- The body of `for page in corpus.keys():` inside the solver loop, exactly
in source order: read `prev_rank = rank_dict_c[page][1]`; sum
`rank_dict_c[x][0] / len(corpus[x])` over the keys `x` (in dict order) with
`page in corpus[x]`, reading the state as it currently stands mid-sweep;
write `rank_dict_c[page][1]`, then `rank_dict_c[page][0] = prev_rank`. -/
def iterStep (corpus : Graph) (hop_chance damping_factor : ℚ)
    (st : IterState) (kv : String × List String) : IterState :=
  let page := kv.1
  let prev_rank := (getPairD st page).2
  let traveled_chance :=
    ((corpus.filter (fun x => page ∈ x.2)).map
      (fun x => (getPairD st x.1).1 / (x.2.length : ℚ))).sum
  let st1 := set1First st page (hop_chance + damping_factor * traveled_chance)
  set0First st1 page prev_rank

/-- One full `for page in corpus.keys()` sweep of `iterate_pagerank`. -/
def sweep (corpus : Graph) (hop_chance damping_factor : ℚ) (st : IterState) :
    IterState :=
  corpus.foldl (iterStep corpus hop_chance damping_factor) st

/-- The metric `total_error = sum([abs(x[1]-x[0]) for x in rank_dict_c.values()]) / num_pages`. -/
def errOf (corpus : Graph) (st : IterState) : ℚ :=
  ((st.map (fun e => |e.2.2 - e.2.1|)).sum) / ((corpus.length : ℕ) : ℚ)

/-- The constant `epsilon = 0.00001`. -/
def epsilon : ℚ := 1 / 100000

/-- The initial `rank_dict_c = {k: [starting_rank, starting_rank] ...}` with
`starting_rank = 1 / num_pages`. -/
def initState (corpus : Graph) : IterState :=
  corpus.map (fun kv =>
    (kv.1, ((1 : ℚ) / ((corpus.length : ℕ) : ℚ), (1 : ℚ) / ((corpus.length : ℕ) : ℚ))))

/-- The returned rank vector `{k: v[1] for k, v in rank_dict_c.items()}`. -/
def ranksOf (st : IterState) : List (String × ℚ) :=
  st.map (fun e => (e.1, e.2.2))

/-- The `while True` loop of `iterate_pagerank`, with an explicit fuel bound:
`none` means the loop has not stopped within `fuel` rounds (the source has no
cap and no failure path — it can only leave the loop through the epsilon
test).  The second result component counts the completed iterations. -/
def iterGo (corpus : Graph) (hop_chance damping_factor : ℚ) :
    IterState → ℕ → ℕ → Option (IterState × ℕ)
  | _, 0, _ => none
  | st, fuel + 1, count =>
    let st' := sweep corpus hop_chance damping_factor st
    if errOf corpus st' ≤ epsilon then some (st', count + 1)
    else iterGo corpus hop_chance damping_factor st' fuel (count + 1)

/-- Embeds `iterate_pagerank(corpus, damping_factor)` with fuel:
`hop_chance = (1 - damping_factor) / num_pages`, start from the uniform
state, loop until the average absolute change is at most `epsilon`, return
the current ranks together with the number of iterations performed. -/
def iterate_pagerank (corpus : Graph) (damping_factor : ℚ) (fuel : ℕ) :
    Option (List (String × ℚ) × ℕ) :=
  (iterGo corpus ((1 - damping_factor) / ((corpus.length : ℕ) : ℚ)) damping_factor
      (initState corpus) fuel 0).map (fun p => (ranksOf p.1, p.2))

/-- The state of `rank_dict_c` after `k` full sweeps of the solver on the
given corpus and damping factor. -/
def sweepIter (corpus : Graph) (damping_factor : ℚ) (k : ℕ) : IterState :=
  (sweep corpus ((1 - damping_factor) / ((corpus.length : ℕ) : ℚ)) damping_factor)^[k]
    (initState corpus)

/-- Modelled from the spec, for comparison with the code's sweep: the
double-buffered recurrence `newRank(p) = (1-damping)/|V| + damping * Σ over
nodes q that link to p of (oldRank(q) / outdegree(q))`, computed entirely
from one frozen rank vector `old`. -/
def jacobiSweep (corpus : Graph) (damping_factor : ℚ)
    (old : List (String × ℚ)) : List (String × ℚ) :=
  corpus.map (fun kv =>
    (kv.1, (1 - damping_factor) / ((corpus.length : ℕ) : ℚ) +
      damping_factor *
        ((corpus.filter (fun x => kv.1 ∈ x.2)).map
          (fun x => lookupD old x.1 0 / (x.2.length : ℚ))).sum))

/-- Two pages linking to each other: `{"A": {"B"}, "B": {"A"}}`. -/
def twoCycleCorpus : Graph := [("A", ["B"]), ("B", ["A"])]

/-- A page linking to a dangling page: `{"A": {"B"}, "B": set()}`. -/
def danglingCorpus : Graph := [("A", ["B"]), ("B", [])]

/-- A single dangling page: `{"A": set()}`. -/
def singleDanglingCorpus : Graph := [("A", [])]

/-- A single page linking to itself: `{"A": {"A"}}`. -/
def selfLoopCorpus : Graph := [("A", ["A"])]

/-- An asymmetric corpus `{"A": {"B"}, "B": {"A"}, "C": {"A"}}`, used both to
exhibit the stale reads of the solver sweep (damping `0.85`) and, with
damping `1`, a run of the solver that never converges. -/
def c7corpus : Graph := [("A", ["B"]), ("B", ["A"]), ("C", ["A"])]

/-- The state `rank_dict_c` after one sweep on `c7corpus` with damping `1`. -/
def c7s1 : IterState := [("A", (1/3, 2/3)), ("B", (1/3, 1/3)), ("C", (1/3, 0))]

/-- The state `rank_dict_c` after two sweeps on `c7corpus` with damping `1`; the sweep
then cycles `c7s2 → c7s3 → c7s4 → c7s2` forever. -/
def c7s2 : IterState := [("A", (2/3, 2/3)), ("B", (1/3, 2/3)), ("C", (0, 0))]

/-- The state `rank_dict_c` after three sweeps on `c7corpus` with damping `1`. -/
def c7s3 : IterState := [("A", (2/3, 1/3)), ("B", (2/3, 2/3)), ("C", (0, 0))]

/-- The state `rank_dict_c` after four sweeps on `c7corpus` with damping `1`. -/
def c7s4 : IterState := [("A", (1/3, 2/3)), ("B", (2/3, 1/3)), ("C", (0, 0))]

/-- Claim C1: the claim states that `transition_model` gives every node the
base weight `(1 - damping) / |graph|` and that the weights sum to `1.0`
within `1e-9`.  The code instead gives every node the base weight
`1 - damping` (no division by the corpus size): on the two-page corpus
`{"A": {"B"}, "B": {"A"}}` with damping `0.85` and page `"A"` it returns
`{"A": 0.15, "B": 1.0}`, whose sum is `1.15`, off by far more than `1e-9`,
and whose base weight `0.15` differs from `(1 - 0.85) / 2 = 0.075`. -/
theorem transition_model_base_weight_not_divided :
    transition_model twoCycleCorpus "A" (17/20) = [("A", 3/20), ("B", 1)] ∧
    ((transition_model twoCycleCorpus "A" (17/20)).map (fun kv => kv.2)).sum = 23/20 ∧
    ¬ (|(23 : ℚ)/20 - 1| ≤ 1/1000000000) ∧
    (3 : ℚ)/20 ≠ (1 - 17/20) / ((twoCycleCorpus.length : ℕ) : ℚ) := by
  refine ⟨by with_unfolding_all decide, by with_unfolding_all decide, by with_unfolding_all decide, by with_unfolding_all decide⟩

/-- Claim C2: the claim states that on a dangling node the damping mass is
redistributed uniformly across all nodes, so the weights do not sum to less
than 1.  The code drops the damping mass entirely when the outdegree is 0:
on `{"A": {"B"}, "B": set()}` with damping `0.85` and page `"B"` it returns
`{"A": 0.15, "B": 0.15}`, whose sum `0.3` is less than 1. -/
theorem transition_model_dangling_mass_dropped :
    transition_model danglingCorpus "B" (17/20) = [("A", 3/20), ("B", 3/20)] ∧
    ((transition_model danglingCorpus "B" (17/20)).map (fun kv => kv.2)).sum = 3/10 ∧
    (3 : ℚ)/10 < 1 := by
  refine ⟨by with_unfolding_all decide, by with_unfolding_all decide, by with_unfolding_all decide⟩

/-- Claim C3: the claim states that both algorithms return rank vectors
summing to `1.0` within `1e-6`, also on graphs with a dangling node.  On the
one-page dangling corpus `{"A": set()}` with damping `0.85`,
`iterate_pagerank` converges in two iterations to `{"A": 0.15}`: the rank
mass of the dangling node is silently lost and the total `0.15` misses `1.0`
by far more than `1e-6`. -/
theorem iterate_pagerank_dangling_loses_mass :
    iterate_pagerank singleDanglingCorpus (17/20) 10 = some ([("A", 3/20)], 2) ∧
    (([("A", (3 : ℚ)/20)]).map (fun kv => kv.2)).sum = 3/20 ∧
    ¬ (|(3 : ℚ)/20 - 1| ≤ 1/1000000) := by
  refine ⟨by with_unfolding_all decide, by with_unfolding_all decide, by with_unfolding_all decide⟩

set_option maxRecDepth 100000 in
/-- Claim C4: the claim states that each sweep of `iterate_pagerank` computes
every new rank exclusively from the previous full iteration's rank values.
In the code, `rank_dict_c[page][0]` is refreshed only when `page` itself is
processed, so mid-sweep the `[0]` slot of every not-yet-processed page still
holds the rank from two iterations back.  On `c7corpus` with damping `0.85`,
the second sweep computes page `"A"`'s rank as `37/60` (using the initial
ranks of `"B"` and `"C"`), while the frozen-snapshot recurrence applied to
the ranks after one sweep gives `451/1200`. -/
theorem iterate_pagerank_sweep_reads_stale_ranks :
    lookupD (ranksOf (sweepIter c7corpus (17/20) 2)) "A" 0 = 37/60 ∧
    lookupD (jacobiSweep c7corpus (17/20) (ranksOf (sweepIter c7corpus (17/20) 1))) "A" 0
      = 451/1200 ∧
    (37 : ℚ)/60 ≠ 451/1200 := by
  refine ⟨by with_unfolding_all decide, by with_unfolding_all decide,
    by with_unfolding_all decide⟩

/-- On `c7corpus` with damping `1` the solver state cycles with period 3 from
`c7s2` on, with average absolute change `1/9`, `2/9`, `1/9` per round, so the
loop guard never becomes true: from any state of the cycle, `iterGo` runs out
of any amount of fuel. -/
theorem c7_cycle_no_exit :
    ∀ (fuel count : ℕ) (st : IterState),
      st = c7s2 ∨ st = c7s3 ∨ st = c7s4 →
      iterGo c7corpus 0 1 st fuel count = none := by
  intro fuel
  induction fuel with
  | zero => intro count st h; rfl
  | succ f ih =>
    intro count st h
    have e23 : sweep c7corpus 0 1 c7s2 = c7s3 := by with_unfolding_all decide
    have e34 : sweep c7corpus 0 1 c7s3 = c7s4 := by with_unfolding_all decide
    have e42 : sweep c7corpus 0 1 c7s4 = c7s2 := by with_unfolding_all decide
    have n2 : ¬ (errOf c7corpus c7s2 ≤ epsilon) := by with_unfolding_all decide
    have n3 : ¬ (errOf c7corpus c7s3 ≤ epsilon) := by with_unfolding_all decide
    have n4 : ¬ (errOf c7corpus c7s4 ≤ epsilon) := by with_unfolding_all decide
    rcases h with rfl | rfl | rfl
    · simp only [iterGo]
      rw [e23, if_neg n3]
      exact ih (count + 1) c7s3 (Or.inr (Or.inl rfl))
    · simp only [iterGo]
      rw [e34, if_neg n4]
      exact ih (count + 1) c7s4 (Or.inr (Or.inr rfl))
    · simp only [iterGo]
      rw [e42, if_neg n2]
      exact ih (count + 1) c7s2 (Or.inl rfl)

/-- From the initial uniform state on `c7corpus` with damping `1`, the solver
loop never stops, whatever the fuel. -/
theorem c7_go_init_none :
    ∀ (fuel count : ℕ), iterGo c7corpus 0 1 (initState c7corpus) fuel count = none := by
  intro fuel count
  have e1 : sweep c7corpus 0 1 (initState c7corpus) = c7s1 := by with_unfolding_all decide
  have n1 : ¬ (errOf c7corpus c7s1 ≤ epsilon) := by with_unfolding_all decide
  have e12 : sweep c7corpus 0 1 c7s1 = c7s2 := by with_unfolding_all decide
  have n2 : ¬ (errOf c7corpus c7s2 ≤ epsilon) := by with_unfolding_all decide
  rcases fuel with _ | _ | f
  · rfl
  · simp only [iterGo]
    rw [e1, if_neg n1]
  · simp only [iterGo]
    rw [e1, if_neg n1, e12, if_neg n2]
    exact c7_cycle_no_exit f (count + 2) c7s2 (Or.inl rfl)

/-- Claim C7, counterexample: the claim states that `iterate_pagerank`
enforces a safety iteration cap of about 10,000 rounds and fails with
`ConvergenceFailure` beyond it.  On `c7corpus` with damping `1` the loop is
still running after 10,001 rounds, having signalled nothing. -/
theorem iterate_pagerank_no_cap_counterexample :
    iterate_pagerank c7corpus 1 10001 = none := by
  have h0 : ((1 : ℚ) - 1) / ((c7corpus.length : ℕ) : ℚ) = 0 := by norm_num
  simp only [iterate_pagerank, h0]
  rw [c7_go_init_none 10001 0]
  rfl

/-- Claim C7, amended: `iterate_pagerank` has no iteration cap and no failure
path at all; its loop can only exit through the epsilon test, and on
`c7corpus` with damping `1` it never exits — for every fuel bound the loop is
still running and no error of any kind has been raised. -/
theorem iterate_pagerank_no_cap_never_fails :
    ∀ fuel : ℕ, iterate_pagerank c7corpus 1 fuel = none := by
  intro fuel
  have h0 : ((1 : ℚ) - 1) / ((c7corpus.length : ℕ) : ℚ) = 0 := by norm_num
  simp only [iterate_pagerank, h0]
  rw [c7_go_init_none fuel 0]
  rfl

/-- Claim C8, counterexample: the claim states that `sample_pagerank` fails
with `InvalidArgument` whenever the sample count is not a positive integer or
the damping factor lies outside `[0, 1]`, returning no rank vector.  With
damping `3/2` (outside `[0, 1]`) and sample count `-5` (not positive) the
code validates nothing: `range(-5)` is empty, so it happily returns the
all-zero rank vector `{"A": 0}` — not an error of any kind. -/
theorem sample_pagerank_invalid_args_counterexample :
    sample_pagerank singleDanglingCorpus (3/2) (-5) (fun _ _ _ => 1)
      = Except.ok [("A", (0 : ℚ))] := by
  with_unfolding_all rfl

/-- Claim C8, amended: `sample_pagerank` performs no argument validation.
For every non-empty corpus and arbitrary damping factor it accepts a negative
sample count and returns the all-zero rank vector without any error, and a
zero sample count makes `inc = 1/n` raise `ZeroDivisionError` — there is no
`InvalidArgument` error anywhere in the code. -/
theorem sample_pagerank_no_validation (corpus : Graph) (damping_factor : ℚ)
    (oracle : ℕ → ℤ → ℤ → ℤ) (h : corpus ≠ []) :
    sample_pagerank corpus damping_factor (-5) oracle
      = Except.ok (corpus.map (fun kv => (kv.1, (0 : ℚ)))) ∧
    sample_pagerank corpus damping_factor 0 oracle
      = Except.error PyError.zeroDivisionError := by
  obtain ⟨c0, rest, rfl⟩ := List.exists_cons_of_ne_nil h
  exact ⟨by with_unfolding_all rfl, by with_unfolding_all rfl⟩

/-- Witness for `sample_pagerank_no_validation` at the one-page corpus and
damping `3/2`. -/
theorem sample_pagerank_no_validation_witness :
    sample_pagerank singleDanglingCorpus (3/2) (-5) (fun _ _ _ => 2)
      = Except.ok (singleDanglingCorpus.map (fun kv => (kv.1, (0 : ℚ)))) ∧
    sample_pagerank singleDanglingCorpus (3/2) 0 (fun _ _ _ => 2)
      = Except.error PyError.zeroDivisionError :=
  sample_pagerank_no_validation singleDanglingCorpus (3/2) (fun _ _ _ => 2)
    (List.cons_ne_nil _ _)

/-- Writing back the value a key already holds leaves a dict unchanged. -/
theorem setFirst_lookupD_self {α : Type} (l : List (String × α)) (k : String)
    (dflt : α) : setFirst l k (lookupD l k dflt) = l := by
  induction l with
  | nil => rfl
  | cons e rest ih =>
    obtain ⟨e1, e2⟩ := e
    by_cases hk : e1 = k
    · simp [setFirst, lookupD, hk]
    · simp [setFirst, lookupD, hk]
      exact ih

/-- Claim C9: `weighted_choose` rescales into a fresh dict and never writes
through its argument, so the caller's distribution object is unchanged by
every call; consequently the `all_prob` cache of `sample_pagerank`, which
aliases the dicts handed to `weighted_choose`, is identical after any number
of draws to what `transition_model` initially produced. -/
theorem weighted_choose_leaves_distributions_unchanged :
    (∀ (pm : List (String × ℚ)) (oracle1 : ℤ → ℤ → ℤ),
      (weighted_choose_st pm oracle1).2 = pm) ∧
    (∀ (oracle : ℕ → ℤ → ℤ → ℤ) (inc : ℚ) (cache : Cache)
      (ranking : List (String × ℚ)) (cur : Option String) (i fuel : ℕ),
      (sampleGo oracle inc cache ranking cur i fuel).2 = cache) := by
  refine ⟨fun pm oracle1 => rfl, ?_⟩
  intro oracle inc cache ranking cur i fuel
  induction fuel generalizing cache ranking cur i with
  | zero => cases cur <;> rfl
  | succ f ih =>
    cases cur with
    | none => rfl
    | some c =>
      have hfr : (weighted_choose_st (lookupD cache c []) (oracle i)).2
          = lookupD cache c [] := rfl
      have hca : setFirst cache c (lookupD cache c []) = cache :=
        setFirst_lookupD_self cache c []
      simp only [sampleGo, hfr, hca]
      rcases hres : (weighted_choose_st (lookupD cache c []) (oracle i)).1 with e | choice
      · rfl
      · exact ih _ _ _ _

/-- The subtraction loop returns a page of the list whenever the starting
value is at most the total weight plus the `0.001` slack. -/
theorem wcGo_returns (l : List (String × ℚ)) : ∀ r : ℚ, l ≠ [] →
    r ≤ (l.map (fun kv => kv.2)).sum + 1/1000 →
    ∃ p, wcGo r l = some p ∧ p ∈ l.map (fun kv => kv.1) := by
  induction l with
  | nil => intro r h _; exact absurd rfl h
  | cons e rest ih =>
    intro r _ hr
    by_cases hc : r - e.2 ≤ 1/1000
    · refine ⟨e.1, ?_, by simp⟩
      simp only [wcGo]
      rw [if_pos hc]
    · rcases rest with _ | ⟨e2, rest2⟩
      · refine absurd ?_ hc
        simp only [List.map_cons, List.map_nil, List.sum_cons, List.sum_nil,
          add_zero] at hr
        linarith
      · have hr2 : r - e.2 ≤ ((e2 :: rest2).map (fun kv => kv.2)).sum + 1/1000 := by
          simp only [List.map_cons, List.sum_cons] at hr ⊢
          linarith
        obtain ⟨p, hp, hmem⟩ := ih (r - e.2) (List.cons_ne_nil _ _) hr2
        refine ⟨p, ?_, ?_⟩
        · simp only [wcGo]
          rw [if_neg hc]
          exact hp
        · simp only [List.map_cons, List.mem_cons] at hmem ⊢
          exact Or.inr hmem

/-- Claim C6, counterexample: the claim states that `weighted_choose` returns
some node for every non-empty distribution with positive total weight.  On
the distribution `{"A": 1/2000}` the total weight `1/2000` is positive, yet
`int(1000 * 1/2000) = 0`, so `random.randint(1, 0)` is called on an empty
range and raises `ValueError` before any node can be returned. -/
theorem weighted_choose_positive_total_counterexample :
    ((0 : ℚ) < 1/2000) ∧ ([("A", (1 : ℚ)/2000)] ≠ ([] : List (String × ℚ))) ∧
    weighted_choose_run [("A", (1 : ℚ)/2000)] (fun lo _ => lo)
      = Except.error PyError.valueError := by
  exact ⟨by norm_num, List.cons_ne_nil _ _, by with_unfolding_all rfl⟩

/-- Claim C6, amended: whenever the integer-scaled total weight
`int(1000 * sum)` is at least 1 (so `random.randint` has a non-empty range),
`weighted_choose` returns some node of the distribution for every value the
random source can produce: the drawn value is at most the scaled total, so
the running remainder reaches the `r ≤ 0.001` test by the last node at the
latest and the loop never falls off the end. -/
theorem weighted_choose_always_returns (pm : List (String × ℚ))
    (oracle1 : ℤ → ℤ → ℤ) (hne : pm ≠ []) (htw : 1 ≤ total_weight pm)
    (hor : ∀ lo hi : ℤ, lo ≤ hi → lo ≤ oracle1 lo hi ∧ oracle1 lo hi ≤ hi) :
    ∃ p, weighted_choose_run pm oracle1 = Except.ok (some p) ∧
      p ∈ pm.map (fun kv => kv.1) := by
  have hnlt : ¬ (total_weight pm < 1) := not_lt.mpr htw
  have hrange := hor 1 (total_weight pm) htw
  have hsum : ((oracle1 1 (total_weight pm) : ℤ) : ℚ)
      ≤ ((rescale pm).map (fun kv => kv.2)).sum + 1/1000 := by
    have h1 : ((oracle1 1 (total_weight pm) : ℤ) : ℚ)
        ≤ ((total_weight pm : ℤ) : ℚ) := by
      exact_mod_cast hrange.2
    have h2 : ((total_weight pm : ℤ) : ℚ)
        ≤ ((rescale pm).map (fun kv => kv.2)).sum :=
      Int.floor_le _
    linarith
  have hne2 : rescale pm ≠ [] := by
    simp only [rescale, ne_eq, List.map_eq_nil_iff]
    exact hne
  obtain ⟨p, hp, hmem⟩ := wcGo_returns (rescale pm) _ hne2 hsum
  have hrun : weighted_choose_run pm oracle1
      = if total_weight pm < 1 then Except.error PyError.valueError
        else Except.ok (wcGo ((oracle1 1 (total_weight pm) : ℤ) : ℚ) (rescale pm)) := rfl
  refine ⟨p, ?_, ?_⟩
  · rw [hrun, if_neg hnlt, hp]
  · simpa [rescale, List.map_map, Function.comp] using hmem

/-- Witness for `weighted_choose_always_returns` on `{"A": 0.9, "B": 0.1}`
with the random source pinned to the low end of the range. -/
theorem weighted_choose_always_returns_witness :
    ∃ p, weighted_choose_run [("A", (9 : ℚ)/10), ("B", (1 : ℚ)/10)] (fun lo _ => lo)
        = Except.ok (some p) ∧
      p ∈ ([("A", (9 : ℚ)/10), ("B", (1 : ℚ)/10)]).map (fun kv => kv.1) :=
  weighted_choose_always_returns [("A", (9 : ℚ)/10), ("B", (1 : ℚ)/10)]
    (fun lo _ => lo) (List.cons_ne_nil _ _) (by with_unfolding_all decide)
    (fun lo hi h => ⟨le_refl lo, h⟩)

/-- Loop characterization of the solver: whenever the loop stops, it stops
after the first round `k` (counting from the entry round `count`) whose sweep
brings the average absolute change to at most `epsilon`, and it returns the
state reached by exactly `k - count` sweeps; every earlier round's change was
above `epsilon`. -/
theorem iterGo_spec (corpus : Graph) (hop_chance damping_factor : ℚ) :
    ∀ (fuel : ℕ) (st : IterState) (count : ℕ) (st' : IterState) (k : ℕ),
      iterGo corpus hop_chance damping_factor st fuel count = some (st', k) →
      count < k ∧ st' = (sweep corpus hop_chance damping_factor)^[k - count] st ∧
      errOf corpus st' ≤ epsilon ∧
      ∀ j, count < j → j < k →
        epsilon < errOf corpus ((sweep corpus hop_chance damping_factor)^[j - count] st) := by
  intro fuel
  induction fuel with
  | zero =>
    intro st count st' k h
    simp only [iterGo] at h
    exact Option.noConfusion h
  | succ f ih =>
    intro st count st' k h
    simp only [iterGo] at h
    by_cases hc : errOf corpus (sweep corpus hop_chance damping_factor st) ≤ epsilon
    · rw [if_pos hc] at h
      injection h with h1
      rw [Prod.mk.injEq] at h1
      obtain ⟨h2, h3⟩ := h1
      subst h2
      subst h3
      have hone : count + 1 - count = 1 := by omega
      refine ⟨Nat.lt_succ_self count, ?_, hc, ?_⟩
      · rw [hone, Function.iterate_one]
      · intro j hj1 hj2
        omega
    · rw [if_neg hc] at h
      obtain ⟨hck, hst, herr, hall⟩ :=
        ih (sweep corpus hop_chance damping_factor st) (count + 1) st' k h
      refine ⟨by omega, ?_, herr, ?_⟩
      · rw [show k - count = (k - (count + 1)) + 1 by omega,
          Function.iterate_succ_apply]
        exact hst
      · intro j hj1 hj2
        by_cases hj : j = count + 1
        · subst hj
          rw [show count + 1 - count = 1 by omega, Function.iterate_one]
          exact lt_of_not_le hc
        · have := hall j (by omega) hj2
          rw [show j - count = (j - (count + 1)) + 1 by omega,
            Function.iterate_succ_apply]
          exact this

/-- Claim C5: whenever `iterate_pagerank` returns after `k` iterations, the
stopping round is exactly the first one whose sum of absolute rank changes
divided by the number of pages is at most `epsilon = 1e-5`: the returned
vector is the current ranks after `k` sweeps, the average absolute change of
sweep `k` is at most `epsilon`, and that of every earlier sweep exceeds
`epsilon`. -/
theorem iterate_pagerank_stops_at_avg_abs_change (corpus : Graph)
    (damping_factor : ℚ) (fuel : ℕ) (result : List (String × ℚ)) (k : ℕ)
    (h : iterate_pagerank corpus damping_factor fuel = some (result, k)) :
    1 ≤ k ∧ result = ranksOf (sweepIter corpus damping_factor k) ∧
    errOf corpus (sweepIter corpus damping_factor k) ≤ epsilon ∧
    ∀ j, 1 ≤ j → j < k →
      epsilon < errOf corpus (sweepIter corpus damping_factor j) := by
  simp only [iterate_pagerank, Option.map_eq_some'] at h
  obtain ⟨⟨st', k'⟩, hgo, hmap⟩ := h
  rw [Prod.mk.injEq] at hmap
  obtain ⟨hres, hk⟩ := hmap
  subst hk
  obtain ⟨hck, hst, herr, hall⟩ :=
    iterGo_spec corpus _ damping_factor fuel (initState corpus) 0 st' k' hgo
  rw [Nat.sub_zero] at hst
  refine ⟨by omega, ?_, ?_, ?_⟩
  · rw [← hres, hst]
    rfl
  · exact hst ▸ herr
  · intro j hj1 hj2
    have := hall j (by omega) hj2
    rw [Nat.sub_zero] at this
    exact this

/-- Witness for `iterate_pagerank_stops_at_avg_abs_change` on the self-loop
corpus with damping `0.85`: the solver stops after the first sweep, whose
average absolute change is `0`. -/
theorem iterate_pagerank_stops_at_avg_abs_change_witness :
    1 ≤ 1 ∧ [("A", (1 : ℚ))] = ranksOf (sweepIter selfLoopCorpus (17/20) 1) ∧
    errOf selfLoopCorpus (sweepIter selfLoopCorpus (17/20) 1) ≤ epsilon ∧
    ∀ j, 1 ≤ j → j < 1 →
      epsilon < errOf selfLoopCorpus (sweepIter selfLoopCorpus (17/20) j) :=
  iterate_pagerank_stops_at_avg_abs_change selfLoopCorpus (17/20) 5 [("A", 1)] 1
    (by with_unfolding_all decide)

/-- Setting every `[1]` slot to the value it already holds is a no-op. -/
theorem set1First_id (st : IterState) (p : String) (v : ℚ)
    (h : ∀ e ∈ st, e.2.2 = v) : set1First st p v = st := by
  induction st with
  | nil => rfl
  | cons e rest ih =>
    obtain ⟨e1, e21, e22⟩ := e
    by_cases hk : e1 = p
    · have h2 : e22 = v := h (e1, e21, e22) (by simp)
      simp [set1First, hk, ← h2]
    · simp only [set1First, hk, if_false]
      rw [ih (fun x hx => h x (List.mem_cons_of_mem _ hx))]

/-- Setting every `[0]` slot to the value it already holds is a no-op. -/
theorem set0First_id (st : IterState) (p : String) (v : ℚ)
    (h : ∀ e ∈ st, e.2.1 = v) : set0First st p v = st := by
  induction st with
  | nil => rfl
  | cons e rest ih =>
    obtain ⟨e1, e21, e22⟩ := e
    by_cases hk : e1 = p
    · have h2 : e21 = v := h (e1, e21, e22) (by simp)
      simp [set0First, hk, ← h2]
    · simp only [set0First, hk, if_false]
      rw [ih (fun x hx => h x (List.mem_cons_of_mem _ hx))]

/-- A dict read either returns the value of a matching entry or the default
when no key matches. -/
theorem getPairD_cases (st : IterState) (p : String) :
    (∃ e, e ∈ st ∧ e.1 = p ∧ getPairD st p = e.2) ∨
    ((∀ e ∈ st, e.1 ≠ p) ∧ getPairD st p = (0, 0)) := by
  induction st with
  | nil => exact Or.inr ⟨by simp, rfl⟩
  | cons e rest ih =>
    by_cases hk : e.1 = p
    · exact Or.inl ⟨e, by simp, hk, by simp [getPairD, hk]⟩
    · rcases ih with ⟨e', he', hp', hg'⟩ | ⟨hall, hg'⟩
      · exact Or.inl ⟨e', List.mem_cons_of_mem _ he', hp', by simp [getPairD, hk, hg']⟩
      · refine Or.inr ⟨?_, by simp [getPairD, hk, hg']⟩
        intro x hx
        rcases List.mem_cons.mp hx with rfl | hx'
        · exact hk
        · exact hall x hx'

/-- Writing to a key that is absent from the dict is a no-op. -/
theorem set0First_absent (st : IterState) (p : String) (v : ℚ)
    (h : ∀ e ∈ st, e.1 ≠ p) : set0First st p v = st := by
  induction st with
  | nil => rfl
  | cons e rest ih =>
    have hk : e.1 ≠ p := h e (by simp)
    simp only [set0First, hk, if_false]
    rw [ih (fun x hx => h x (List.mem_cons_of_mem _ hx))]

/-- With damping `0` and `hop_chance = s`, processing any page leaves a state
whose entries all hold `[s, s]` unchanged: the new rank is
`s + 0 * traveled = s` and the `[0]` slot is rewritten with its own value. -/
theorem iterStep_uniform (corpus : Graph) (s : ℚ) (st : IterState)
    (kv : String × List String) (h : ∀ e ∈ st, e.2 = (s, s)) :
    iterStep corpus s 0 st kv = st := by
  simp only [iterStep]
  rw [zero_mul, add_zero]
  rw [set1First_id st kv.1 s (fun e he => by rw [h e he])]
  rcases getPairD_cases st kv.1 with ⟨e, he, _, hg⟩ | ⟨hall, hg⟩
  · rw [hg, h e he]
    exact set0First_id st kv.1 s (fun x hx => by rw [h x hx])
  · rw [hg]
    exact set0First_absent st kv.1 _ hall

/-- A left fold with a step that fixes the accumulator returns it. -/
theorem foldl_fixed {α β : Type} (f : β → α → β) (b : β)
    (h : ∀ a, f b a = b) : ∀ l : List α, l.foldl f b = b := by
  intro l
  induction l with
  | nil => rfl
  | cons a rest ih =>
    rw [List.foldl_cons, h a]
    exact ih

/-- With damping `0` a full sweep fixes the uniform state. -/
theorem sweep_uniform (corpus : Graph) (s : ℚ) (st : IterState)
    (h : ∀ e ∈ st, e.2 = (s, s)) : sweep corpus s 0 st = st :=
  foldl_fixed _ _ (fun kv => iterStep_uniform corpus s st kv h) corpus

/-- Claim C10: on every non-empty corpus, `iterate_pagerank` with damping
factor `0` stops after exactly one sweep and returns the uniform rank vector
`1 / |V|`: the first sweep rewrites every rank with
`hop_chance + 0 * traveled = 1/|V|`, which equals the initial rank, so the
average absolute change is `0 ≤ epsilon` and the loop exits at once. -/
theorem iterate_pagerank_zero_damping (corpus : Graph) (fuel : ℕ)
    (_hne : corpus ≠ []) (hf : 1 ≤ fuel) :
    iterate_pagerank corpus 0 fuel
      = some (corpus.map (fun kv => (kv.1, 1 / ((corpus.length : ℕ) : ℚ))), 1) := by
  obtain ⟨f, rfl⟩ : ∃ f, fuel = f + 1 := ⟨fuel - 1, by omega⟩
  have hhop : ((1 : ℚ) - 0) / ((corpus.length : ℕ) : ℚ)
      = 1 / ((corpus.length : ℕ) : ℚ) := by norm_num
  have hu : ∀ e ∈ initState corpus,
      e.2 = (1 / ((corpus.length : ℕ) : ℚ), 1 / ((corpus.length : ℕ) : ℚ)) := by
    intro e he
    simp only [initState, List.mem_map] at he
    obtain ⟨kv, _, rfl⟩ := he
    rfl
  have hswp : sweep corpus (1 / ((corpus.length : ℕ) : ℚ)) 0 (initState corpus)
      = initState corpus :=
    sweep_uniform corpus _ _ hu
  have herr : errOf corpus (initState corpus) ≤ epsilon := by
    have hz : errOf corpus (initState corpus) = 0 := by
      simp only [errOf, initState, List.map_map]
      have h0 : ((fun e : String × ℚ × ℚ => |e.2.2 - e.2.1|) ∘
          (fun kv : String × List String =>
            (kv.1, (1 / ((corpus.length : ℕ) : ℚ), 1 / ((corpus.length : ℕ) : ℚ)))))
          = fun _ => (0 : ℚ) := by
        funext kv
        simp
      rw [h0]
      have hsz : (corpus.map (fun _ => (0 : ℚ))).sum = 0 := by
        apply List.sum_eq_zero
        intro x hx
        simp only [List.mem_map] at hx
        obtain ⟨_, _, rfl⟩ := hx
        rfl
      rw [hsz, zero_div]
    rw [hz]
    norm_num [epsilon]
  simp only [iterate_pagerank, hhop, iterGo]
  rw [hswp, if_pos herr]
  simp [ranksOf, initState, List.map_map, Function.comp]

/-- Witness for `iterate_pagerank_zero_damping` on the two-page cycle. -/
theorem iterate_pagerank_zero_damping_witness :
    iterate_pagerank twoCycleCorpus 0 3
      = some (twoCycleCorpus.map
          (fun kv => (kv.1, 1 / ((twoCycleCorpus.length : ℕ) : ℚ))), 1) :=
  iterate_pagerank_zero_damping twoCycleCorpus 3 (List.cons_ne_nil _ _) (by omega)
